import Mathlib

/-!
Verification of the pi-queue-picker extension: the message-delivery queue,
the two interactive popup state machines (mode picker and queue editor),
and the flush/arbitration policy around editor commits and lifecycle events.

The definitions below are shallow embeddings of the TypeScript sources:
  * buffer operations from `src/extensions/buffer.ts`,
  * the queue editor and mode picker state machines from
    `src/extensions/screens/queue-editor.ts` (the same handler code appears
    inline in the canonical extension snapshot),
  * the controller (dispatch helpers, lifecycle flush, edit-queue session
    and commit policy) from the most feature-complete extension snapshot,
    which carries the priority-pull-steer-on-commit policy and inline edit.

JavaScript strings are kept as Lean `String`s where they are opaque payload;
the one string operation the code performs on them (`value.trim()`) is
modelled over the character list so that it is fully evaluable.
Key decoding (`matchesKey` from pi-tui) is an external collaborator; the
distinct key classes the handlers branch on are modelled as an inductive
token vocabulary, with one constructor per equivalence class of raw inputs
that every handler treats identically.
-/

/-- Delivery mode of a buffered message, from `types.ts` (`PickerMode`). -/
inductive PickerMode where
  | steer
  | followUp
deriving DecidableEq, Repr

/-- A buffered message, from `types.ts` (`BufferedMessage`). -/
structure BufferedMessage where
  text : String
  mode : PickerMode
  id : String
deriving DecidableEq, Repr

/-- JavaScript `String.prototype.trim` over the character list. -/
def trimChars (s : List Char) : List Char :=
  ((s.dropWhile Char.isWhitespace).reverse.dropWhile Char.isWhitespace).reverse

/-- JavaScript `value.trim()` on a Lean string. -/
def jsTrim (s : String) : String :=
  String.mk (trimChars s.data)

/-- The key-token vocabulary both popups recognize. Each constructor stands
for one class of raw input strings that every handler in the source treats
identically (for example `keyK` covers the raw characters k and K, the
shift variant, and the shift-up escape sequence, which the queue editor
ors together into its single `moveUp` test). `other` covers every
unrecognized input. -/
inductive InputToken where
  | tab
  | up
  | down
  | left
  | right
  | enter
  | escape
  | keyJ
  | keyK
  | keyE
  | keyD
  | del
  | backspace
  | other
deriving DecidableEq, Repr

/-- Action emitted by the mode picker, from `types.ts`. -/
inductive ModePickerAction where
  | select (mode : PickerMode)
  | cancel
deriving DecidableEq, Repr

/-- Action emitted by the queue editor, from `types.ts`. -/
inductive QueueEditorAction where
  | save (items : List BufferedMessage)
  | cancel
deriving DecidableEq, Repr

/-- Mode picker state, from `screens/queue-editor.ts` (`ModePickerState`). -/
structure ModePickerState where
  selected : PickerMode
  messageText : String
deriving DecidableEq, Repr

/-- The mode picker input handler, from `handleModePickerInput` in
`screens/queue-editor.ts`. The source mutates the state and may return an
action; the embedding returns the updated state next to the optional
action. -/
def handleModePickerInput (s : ModePickerState) (t : InputToken) :
    ModePickerState × Option ModePickerAction :=
  match t with
  | InputToken.tab | InputToken.up | InputToken.down =>
    ({ s with selected :=
        if s.selected = PickerMode.steer then PickerMode.followUp
        else PickerMode.steer }, none)
  | InputToken.left => ({ s with selected := PickerMode.steer }, none)
  | InputToken.right => ({ s with selected := PickerMode.followUp }, none)
  | InputToken.enter => (s, some (ModePickerAction.select s.selected))
  | InputToken.escape => (s, some ModePickerAction.cancel)
  | _ => (s, none)

/-- Sub-mode of the queue editor (`"list" | "edit"` in the source). -/
inductive EditorMode where
  | list
  | edit
deriving DecidableEq, Repr

/-- Queue editor state, from `screens/queue-editor.ts` (`QueueEditorState`).
The `editInput` field of the source is the external pi-tui `Input`
component; only its callbacks touch this state, so it is not part of the
embedded state. -/
structure QueueEditorState where
  items : List BufferedMessage
  selected : Nat
  mode : EditorMode
deriving DecidableEq, Repr

/-- From `createQueueEditorState`: the session state starts on a private
clone of the queue entries (cloning is the identity on pure values), with
the selection at 0 and in list mode. -/
def createQueueEditorState (items : List BufferedMessage) : QueueEditorState :=
  { items := items, selected := 0, mode := EditorMode.list }

/-- The `editInput.onSubmit` callback wired in `createQueueEditorState`:
a non-blank trimmed value is written into the selected entry, a blank one
is discarded; either way the editor returns to list mode. -/
def editInputOnSubmit (s : QueueEditorState) (value : String) : QueueEditorState :=
  if s.items = [] then { s with mode := EditorMode.list }
  else
    let updated := jsTrim value
    let items' :=
      if 0 < updated.data.length then
        match s.items.get? s.selected with
        | some item => s.items.set s.selected ({ item with text := updated })
        | none => s.items
      else s.items
    { s with items := items', mode := EditorMode.list }

/-- The `editInput.onEscape` callback wired in `createQueueEditorState`. -/
def editInputOnEscape (s : QueueEditorState) : QueueEditorState :=
  { s with mode := EditorMode.list }

/-- From `openEditor`: switch into the inline-edit sub-mode (seeding the
external `Input` component with the selected text touches only that
component). -/
def openEditor (s : QueueEditorState) : QueueEditorState :=
  if s.items = [] then s else { s with mode := EditorMode.edit }

/-- The empty-items branch at the top of `handleQueueEditorInput`: enter
and escape both resolve with an empty save; everything else is inert. -/
def emptyItemsInput (s : QueueEditorState) :
    InputToken → QueueEditorState × Option QueueEditorAction
  | InputToken.enter => (s, some (QueueEditorAction.save []))
  | InputToken.escape => (s, some (QueueEditorAction.save []))
  | _ => (s, none)

/-- The `moveUp` branch of `handleQueueEditorInput` (raw k, K, the shift
variants and the shift-up sequence): splice the selected entry out and
back in one position earlier, moving `selected` with it; a no-op at the
top. -/
def moveSelectedUp (s : QueueEditorState) : QueueEditorState × Option QueueEditorAction :=
  if 0 < s.selected then
    match s.items.get? s.selected with
    | some item =>
      ({ s with
          items := (s.items.eraseIdx s.selected).insertIdx (s.selected - 1) item,
          selected := s.selected - 1 }, none)
    | none => (s, none)
  else (s, none)

/-- The `moveDown` branch of `handleQueueEditorInput`: splice the selected
entry out and back in one position later, moving `selected` with it; a
no-op at the bottom. -/
def moveSelectedDown (s : QueueEditorState) : QueueEditorState × Option QueueEditorAction :=
  if s.selected < s.items.length - 1 then
    match s.items.get? s.selected with
    | some item =>
      ({ s with
          items := (s.items.eraseIdx s.selected).insertIdx (s.selected + 1) item,
          selected := s.selected + 1 }, none)
    | none => (s, none)
  else (s, none)

/-- The tab branch of `handleQueueEditorInput`: toggle the selected
entry's mode in place. -/
def toggleSelectedMode (s : QueueEditorState) : QueueEditorState × Option QueueEditorAction :=
  match s.items.get? s.selected with
  | some item =>
    let toggled : BufferedMessage :=
      { item with mode :=
          if item.mode = PickerMode.steer then PickerMode.followUp
          else PickerMode.steer }
    ({ s with items := s.items.set s.selected toggled }, none)
  | none => (s, none)

/-- The d / delete / backspace branch of `handleQueueEditorInput`: remove
the selected entry and re-clamp `selected` to the last valid index (the
source clamps to `Math.min(selected, Math.max(0, items.length - 1))`;
truncated subtraction renders the inner max). -/
def deleteSelected (s : QueueEditorState) : QueueEditorState × Option QueueEditorAction :=
  let remaining := s.items.eraseIdx s.selected
  ({ s with
      items := remaining,
      selected := min s.selected (remaining.length - 1) }, none)

/-- The list-mode key dispatch of `handleQueueEditorInput`. -/
def listModeInput (s : QueueEditorState) :
    InputToken → QueueEditorState × Option QueueEditorAction
  | InputToken.keyK => moveSelectedUp s
  | InputToken.keyJ => moveSelectedDown s
  | InputToken.up => ({ s with selected := s.selected - 1 }, none)
  | InputToken.down =>
    ({ s with selected := min (s.items.length - 1) (s.selected + 1) }, none)
  | InputToken.tab => toggleSelectedMode s
  | InputToken.keyE => (openEditor s, none)
  | InputToken.keyD => deleteSelected s
  | InputToken.del => deleteSelected s
  | InputToken.backspace => deleteSelected s
  | InputToken.enter => (s, some (QueueEditorAction.save s.items))
  | InputToken.escape => (s, some QueueEditorAction.cancel)
  | _ => (s, none)

/-- The queue editor input handler, from `handleQueueEditorInput` in
`screens/queue-editor.ts`: the empty-items branch first, then the
edit-sub-mode forwarding (input goes verbatim to the external `Input`
component, whose onSubmit/onEscape callbacks arrive as separate editor
events), then the list-mode dispatch. Where the source indexes
`items[selected]`, the index is always in range by the selection invariant
proved below; the `none` fallbacks of `get?` only keep the model total. -/
def handleQueueEditorInput (s : QueueEditorState) (t : InputToken) :
    QueueEditorState × Option QueueEditorAction :=
  if s.items = [] then emptyItemsInput s t
  else if s.mode = EditorMode.edit then (s, none)
  else listModeInput s t

/-- One event of an open queue editor session: a key token, or one of the
two callbacks the external inline `Input` component can fire. -/
inductive EditorEvent where
  | key (t : InputToken)
  | submitEdit (value : String)
  | escapeEdit
deriving Repr

/-- One editor event applied to a session state. -/
def editorStep (s : QueueEditorState) : EditorEvent → QueueEditorState × Option QueueEditorAction
  | EditorEvent.key t => handleQueueEditorInput s t
  | EditorEvent.submitEdit v => (editInputOnSubmit s v, none)
  | EditorEvent.escapeEdit => (editInputOnEscape s, none)

/-- The session state after a sequence of editor events (emitted actions do
not change the editor state). -/
def runEditorState (s : QueueEditorState) : List EditorEvent → QueueEditorState
  | [] => s
  | e :: rest => runEditorState (editorStep s e).1 rest

/-- A delivery request emitted to the host, from `sendToPi` in the
extension: an idle-path delivery carries no tag, a busy-path delivery
carries an explicit `deliverAs` mode. -/
inductive Sent where
  | plain (text : String)
  | tagged (text : String) (mode : PickerMode)
deriving DecidableEq, Repr

/-- From `sendToPi(text, isIdle, mode)`: idle sends untagged, busy sends
with the explicit delivery mode. -/
def sendToPi (text : String) (isIdle : Bool) (mode : PickerMode) : Sent :=
  if isIdle then Sent.plain text else Sent.tagged text mode

/-- From `flushOneQueuedMessage(isIdle)`: pop the front of the buffer and
dispatch it with its own mode; a no-op on an empty buffer. Returns the new
buffer together with the dispatched messages. -/
def flushOneQueuedMessage (isIdle : Bool) :
    List BufferedMessage → List BufferedMessage × List Sent
  | [] => ([], [])
  | next :: rest => (rest, [sendToPi next.text isIdle next.mode])

/-- From `flushOneSteerWhileBusy()`: find the first steer-tagged entry,
splice it out and dispatch it as a steer interrupt; a no-op when no entry
is steer-tagged. The inner `none` fallback is unreachable because
`findIdx?` returns an in-range index. -/
def flushOneSteerWhileBusy (buffer : List BufferedMessage) :
    List BufferedMessage × List Sent :=
  match buffer.findIdx? (fun m => m.mode == PickerMode.steer) with
  | none => (buffer, [])
  | some steerIndex =>
    match buffer.get? steerIndex with
    | some steerMsg =>
      (buffer.eraseIdx steerIndex, [sendToPi steerMsg.text false PickerMode.steer])
    | none => (buffer.eraseIdx steerIndex, [])

/-- From `shiftNextSteer` in `buffer.ts`: find and remove the first steer
message, returning it next to the remaining buffer. -/
def shiftNextSteer (buffer : List BufferedMessage) :
    Option BufferedMessage × List BufferedMessage :=
  match buffer.findIdx? (fun m => m.mode == PickerMode.steer) with
  | none => (none, buffer)
  | some index => (buffer.get? index, buffer.eraseIdx index)

/-- The `agent_end` event handler: when an edit session is open or the
buffer is empty it returns at once, otherwise it flushes one queued
message. -/
def handleAgentEnd (editingQueue : Bool) (isIdle : Bool)
    (buffer : List BufferedMessage) : List BufferedMessage × List Sent :=
  if editingQueue || buffer.isEmpty then (buffer, [])
  else flushOneQueuedMessage isIdle buffer

/-- The tail of `editQueue` after the popup resolves with a saved list:
the buffer is replaced wholesale by the committed items, then one flush is
attempted — the front message when the agent is idle and the new queue is
non-empty, otherwise (agent still busy) a single priority pull of the
first steer-tagged entry. -/
def editQueueCommit (isIdle : Bool) (result : List BufferedMessage) :
    List BufferedMessage × List Sent :=
  if isIdle && !result.isEmpty then flushOneQueuedMessage true result
  else if !isIdle then flushOneSteerWhileBusy result
  else (result, [])

/-- An event observed while the queue editor popup is open: an editor
input or callback, or a lifecycle `agent_end` arriving concurrently. -/
inductive SessionEvent where
  | editorInput (e : EditorEvent)
  | agentEnd (isIdle : Bool)
deriving Repr

/-- The observable controller state while an edit session is open: the
live buffer, the popup's private editor state, and the messages dispatched
so far. -/
structure SessionCtx where
  buffer : List BufferedMessage
  ed : QueueEditorState
  sent : List Sent
deriving DecidableEq, Repr

/-- One event applied while the edit session is open. The `editingQueue`
re-entrancy guard is set for the whole session, so an `agent_end` event
runs its handler with the guard raised. -/
def sessionStep (c : SessionCtx) : SessionEvent → SessionCtx × Option QueueEditorAction
  | SessionEvent.editorInput e =>
    let r := editorStep c.ed e
    ({ c with ed := r.1 }, r.2)
  | SessionEvent.agentEnd isIdle =>
    let r := handleAgentEnd true isIdle c.buffer
    ({ c with buffer := r.1, sent := c.sent ++ r.2 }, none)

/-- Run session events until the popup resolves via its first terminal
action (the popup closes then; later events no longer reach it). -/
def runSession (c : SessionCtx) : List SessionEvent → SessionCtx × Option QueueEditorAction
  | [] => (c, none)
  | e :: rest =>
    match sessionStep c e with
    | (c', none) => runSession c' rest
    | (c', some act) => (c', some act)

/-- The whole `editQueue` entry point: a no-op with a notification when the
buffer is empty; otherwise an editor session over a private clone of the
buffer, followed by the commit policy on save, or by nothing on cancel.
`isIdle` is the backend state sampled when the popup resolves. Returns the
final live buffer and every message dispatched. -/
def editQueue (isIdle : Bool) (buffer : List BufferedMessage)
    (events : List SessionEvent) : List BufferedMessage × List Sent :=
  if buffer.isEmpty then (buffer, [])
  else
    let r := runSession ⟨buffer, createQueueEditorState buffer, []⟩ events
    match r.2 with
    | some (QueueEditorAction.save items) =>
      let f := editQueueCommit isIdle items
      (f.1, r.1.sent ++ f.2)
    | some QueueEditorAction.cancel => (r.1.buffer, r.1.sent)
    | none => (r.1.buffer, r.1.sent)

/-- Character class of a slash-command name. -/
def isCommandChar (c : Char) : Bool :=
  c.isAlpha || c.isDigit || c == ':' || c == '_' || c == '-'

/-- Modelled from the spec: `shouldBypassPicker` is exported by the
extension and exercised by `queue-picker-input.test.ts`, but its
implementation is not among the provided sources. Per the spec, a
submission bypasses the picker exactly when its trimmed text begins with
a slash and the first token consists, after the slash, only of letters,
digits, colons, underscores and dashes (so an embedded slash, as in a
filesystem path, excludes it); the bare slash token is bypassed too. -/
def shouldBypassPicker (text : String) : Bool :=
  match trimChars text.data with
  | [] => false
  | c :: rest =>
    if c == '/' then
      (rest.takeWhile (fun ch => !ch.isWhitespace)).all isCommandChar
    else false

/-- The queue editor selection invariant: `selected` is a valid index when
`items` is non-empty and is pinned to 0 when `items` is empty. -/
def selectedInv (s : QueueEditorState) : Prop :=
  (s.items.length = 0 → s.selected = 0) ∧
  (0 < s.items.length → s.selected < s.items.length)

instance (s : QueueEditorState) : Decidable (selectedInv s) := by
  unfold selectedInv; infer_instance

/-- Concrete messages used to evaluate the model on the worked examples of
the spec and tests. -/
def msgA : BufferedMessage := { text := "A", mode := PickerMode.steer, id := "a" }

/-- Second concrete message (a follow-up). -/
def msgB : BufferedMessage := { text := "B", mode := PickerMode.followUp, id := "b" }

/-- Third concrete message (a steer). -/
def msgC : BufferedMessage := { text := "C", mode := PickerMode.steer, id := "c" }

/-! Helper lemmas about list surgery at a decomposition boundary and about
`findIdx?`. These back the characterizations of the steer priority pull
and of the adjacent-swap reorder. -/

theorem findIdx?_none_of_all {α : Type _} {p : α → Bool} (l : List α)
    (h : ∀ x ∈ l, p x = false) : ∀ i, l.findIdx? p i = none := by
  induction l with
  | nil => intro i; exact List.findIdx?_nil
  | cons a l ih =>
    intro i
    rw [List.findIdx?_cons, h a (List.mem_cons_self a l)]
    simpa using ih (fun x hx => h x (List.mem_cons_of_mem a hx)) (i + 1)

theorem findIdx?_append_first {α : Type _} {p : α → Bool} (pre : List α)
    (m : α) (post : List α) (hpre : ∀ x ∈ pre, p x = false) (hm : p m = true) :
    ∀ i, (pre ++ m :: post).findIdx? p i = some (i + pre.length) := by
  induction pre with
  | nil => intro i; simp [List.findIdx?_cons, hm]
  | cons a pre ih =>
    intro i
    rw [List.cons_append, List.findIdx?_cons, hpre a (List.mem_cons_self a pre)]
    have := ih (fun x hx => hpre x (List.mem_cons_of_mem a hx)) (i + 1)
    simp only [Bool.false_eq_true, if_false, this, List.length_cons]
    congr 1
    omega

theorem get?_append_cons {α : Type _} :
    ∀ (pre : List α) (x : α) (post : List α),
      (pre ++ x :: post).get? pre.length = some x := by
  intro pre
  induction pre with
  | nil => intro x post; rfl
  | cons a pre ih => intro x post; simpa using ih x post

theorem eraseIdx_append_cons {α : Type _} :
    ∀ (pre : List α) (x : α) (post : List α),
      (pre ++ x :: post).eraseIdx pre.length = pre ++ post := by
  intro pre
  induction pre with
  | nil => intro x post; rfl
  | cons a pre ih => intro x post; simpa [List.eraseIdx] using ih x post

theorem insertIdx_append_at {α : Type _} :
    ∀ (pre rest : List α) (y : α),
      (pre ++ rest).insertIdx pre.length y = pre ++ y :: rest := by
  intro pre
  induction pre with
  | nil => intro rest y; rfl
  | cons a pre ih => intro rest y; simpa [List.insertIdx] using ih rest y

theorem length_eraseIdx_lt {α : Type _} (l : List α) (i : Nat)
    (h : i < l.length) : (l.eraseIdx i).length = l.length - 1 := by
  rw [List.length_eraseIdx]
  simp [h]

theorem length_move {α : Type _} (l : List α) (i j : Nat) (x : α)
    (hi : i < l.length) (hj : j ≤ l.length - 1) :
    ((l.eraseIdx i).insertIdx j x).length = l.length := by
  rw [List.length_insertIdx _ _ (by rw [length_eraseIdx_lt l i hi]; exact hj),
    length_eraseIdx_lt l i hi]
  omega

theorem selectedInv_mk (items : List BufferedMessage) (sel : Nat) (mode : EditorMode)
    (hA : items.length = 0 → sel = 0) (hB : 0 < items.length → sel < items.length) :
    selectedInv ⟨items, sel, mode⟩ := ⟨hA, hB⟩

theorem moveSelectedUp_inv (s : QueueEditorState) (h : selectedInv s)
    (hlen : 0 < s.items.length) : selectedInv (moveSelectedUp s).1 := by
  obtain ⟨h0, h1⟩ := h
  have hsel : s.selected < s.items.length := h1 hlen
  unfold moveSelectedUp
  by_cases hsel0 : 0 < s.selected
  · rw [if_pos hsel0, List.get?_eq_get hsel]
    have hlen' := length_move s.items s.selected (s.selected - 1)
      (s.items.get ⟨s.selected, hsel⟩) hsel (by omega)
    constructor
    · intro hz; simp only at hz; rw [hlen'] at hz; omega
    · intro _; simp only; rw [hlen']; omega
  · rw [if_neg hsel0]; exact ⟨h0, h1⟩

theorem moveSelectedDown_inv (s : QueueEditorState) (h : selectedInv s)
    (hlen : 0 < s.items.length) : selectedInv (moveSelectedDown s).1 := by
  obtain ⟨h0, h1⟩ := h
  have hsel : s.selected < s.items.length := h1 hlen
  unfold moveSelectedDown
  by_cases hselj : s.selected < s.items.length - 1
  · rw [if_pos hselj, List.get?_eq_get hsel]
    have hlen' := length_move s.items s.selected (s.selected + 1)
      (s.items.get ⟨s.selected, hsel⟩) hsel (by omega)
    constructor
    · intro hz; simp only at hz; rw [hlen'] at hz; omega
    · intro _; simp only; rw [hlen']; omega
  · rw [if_neg hselj]; exact ⟨h0, h1⟩

theorem toggleSelectedMode_inv (s : QueueEditorState) (h : selectedInv s)
    (hlen : 0 < s.items.length) : selectedInv (toggleSelectedMode s).1 := by
  obtain ⟨h0, h1⟩ := h
  have hsel : s.selected < s.items.length := h1 hlen
  unfold toggleSelectedMode
  rw [List.get?_eq_get hsel]
  constructor
  · intro hz; simp only [List.length_set] at hz; omega
  · intro _; simp only [List.length_set]; omega

theorem deleteSelected_inv (s : QueueEditorState) (h : selectedInv s)
    (hlen : 0 < s.items.length) : selectedInv (deleteSelected s).1 := by
  obtain ⟨h0, h1⟩ := h
  have hsel : s.selected < s.items.length := h1 hlen
  have hr := length_eraseIdx_lt s.items s.selected hsel
  unfold deleteSelected
  constructor
  · intro hz; simp only [hr] at hz ⊢; omega
  · intro hpos; simp only [hr] at hpos ⊢; omega

theorem handleQueueEditorInput_inv (s : QueueEditorState) (t : InputToken)
    (h : selectedInv s) : selectedInv (handleQueueEditorInput s t).1 := by
  by_cases hemp : s.items = []
  · unfold handleQueueEditorInput
    rw [if_pos hemp]
    cases t <;> exact h
  · have hlen : 0 < s.items.length := by
      cases hs : s.items with
      | nil => exact absurd hs hemp
      | cons a l => simp [hs]
    unfold handleQueueEditorInput
    rw [if_neg hemp]
    by_cases hmode : s.mode = EditorMode.edit
    · rw [if_pos hmode]; exact h
    · rw [if_neg hmode]
      obtain ⟨h0, h1⟩ := h
      have hsel : s.selected < s.items.length := h1 hlen
      cases t with
      | keyK => exact moveSelectedUp_inv s ⟨h0, h1⟩ hlen
      | keyJ => exact moveSelectedDown_inv s ⟨h0, h1⟩ hlen
      | tab => exact toggleSelectedMode_inv s ⟨h0, h1⟩ hlen
      | keyD => exact deleteSelected_inv s ⟨h0, h1⟩ hlen
      | del => exact deleteSelected_inv s ⟨h0, h1⟩ hlen
      | backspace => exact deleteSelected_inv s ⟨h0, h1⟩ hlen
      | up => exact selectedInv_mk _ _ _ (fun hz => by omega) (fun _ => by omega)
      | down => exact selectedInv_mk _ _ _ (fun hz => by omega) (fun _ => by omega)
      | keyE =>
        show selectedInv (openEditor s)
        unfold openEditor
        rw [if_neg hemp]
        exact selectedInv_mk _ _ _ h0 h1
      | enter => exact ⟨h0, h1⟩
      | escape => exact ⟨h0, h1⟩
      | left => exact ⟨h0, h1⟩
      | right => exact ⟨h0, h1⟩
      | other => exact ⟨h0, h1⟩

theorem editorStep_inv (s : QueueEditorState) (e : EditorEvent)
    (h : selectedInv s) : selectedInv (editorStep s e).1 := by
  cases e with
  | key t => exact handleQueueEditorInput_inv s t h
  | submitEdit v =>
    obtain ⟨h0, h1⟩ := h
    show selectedInv (editInputOnSubmit s v)
    unfold editInputOnSubmit
    by_cases hemp : s.items = []
    · rw [if_pos hemp]; exact ⟨h0, h1⟩
    · rw [if_neg hemp]
      dsimp only
      by_cases hnb : 0 < (jsTrim v).data.length
      · rw [if_pos hnb]
        cases hg : s.items.get? s.selected with
        | some item =>
          constructor
          · intro hz; simp only [List.length_set] at hz; exact h0 hz
          · intro hpos; simp only [List.length_set] at hpos ⊢; exact h1 hpos
        | none => exact ⟨h0, h1⟩
      · rw [if_neg hnb]; exact ⟨h0, h1⟩
  | escapeEdit => exact h

theorem runEditorState_inv (events : List EditorEvent) :
    ∀ s : QueueEditorState, selectedInv s → selectedInv (runEditorState s events) := by
  induction events with
  | nil => intro s h; exact h
  | cons e rest ih => intro s h; exact ih _ (editorStep_inv s e h)

theorem handleAgentEnd_editing (isIdle : Bool) (buffer : List BufferedMessage) :
    handleAgentEnd true isIdle buffer = (buffer, []) := by
  unfold handleAgentEnd
  simp

theorem sessionStep_agentEnd (c : SessionCtx) (isIdle : Bool) :
    sessionStep c (SessionEvent.agentEnd isIdle) = (c, none) := by
  unfold sessionStep
  dsimp only
  rw [handleAgentEnd_editing]
  simp

theorem runSession_frame (events : List SessionEvent) :
    ∀ c : SessionCtx,
      (runSession c events).1.buffer = c.buffer ∧ (runSession c events).1.sent = c.sent := by
  induction events with
  | nil => intro c; exact ⟨rfl, rfl⟩
  | cons e rest ih =>
    intro c
    cases e with
    | editorInput e' =>
      unfold runSession
      rw [show sessionStep c (SessionEvent.editorInput e') =
        ({ c with ed := (editorStep c.ed e').1 }, (editorStep c.ed e').2) from rfl]
      cases hact : (editorStep c.ed e').2 with
      | none => exact ih { c with ed := (editorStep c.ed e').1 }
      | some a => exact ⟨rfl, rfl⟩
    | agentEnd isIdle =>
      unfold runSession
      rw [sessionStep_agentEnd]
      exact ih c

theorem isSteer_false_of_ne (x : BufferedMessage) (h : x.mode ≠ PickerMode.steer) :
    (x.mode == PickerMode.steer) = false := by
  simp only [beq_eq_false_iff_ne, ne_eq]
  exact h

theorem flushOneSteerWhileBusy_found (pre : List BufferedMessage) (m : BufferedMessage)
    (post : List BufferedMessage) (hpre : ∀ x ∈ pre, x.mode ≠ PickerMode.steer)
    (hm : m.mode = PickerMode.steer) :
    flushOneSteerWhileBusy (pre ++ m :: post) =
      (pre ++ post, [Sent.tagged m.text PickerMode.steer]) := by
  unfold flushOneSteerWhileBusy
  have hfind := findIdx?_append_first (p := fun x => x.mode == PickerMode.steer)
    pre m post (fun x hx => isSteer_false_of_ne x (hpre x hx)) (by simp [hm]) 0
  rw [hfind]
  simp only [Nat.zero_add]
  rw [get?_append_cons, eraseIdx_append_cons]
  rfl

theorem flushOneSteerWhileBusy_none (buffer : List BufferedMessage)
    (h : ∀ x ∈ buffer, x.mode ≠ PickerMode.steer) :
    flushOneSteerWhileBusy buffer = (buffer, []) := by
  unfold flushOneSteerWhileBusy
  rw [findIdx?_none_of_all buffer (fun x hx => isSteer_false_of_ne x (h x hx)) 0]

theorem shiftNextSteer_found (pre : List BufferedMessage) (m : BufferedMessage)
    (post : List BufferedMessage) (hpre : ∀ x ∈ pre, x.mode ≠ PickerMode.steer)
    (hm : m.mode = PickerMode.steer) :
    shiftNextSteer (pre ++ m :: post) = (some m, pre ++ post) := by
  unfold shiftNextSteer
  have hfind := findIdx?_append_first (p := fun x => x.mode == PickerMode.steer)
    pre m post (fun x hx => isSteer_false_of_ne x (hpre x hx)) (by simp [hm]) 0
  rw [hfind]
  simp only [Nat.zero_add]
  rw [get?_append_cons, eraseIdx_append_cons]

theorem shiftNextSteer_none (buffer : List BufferedMessage)
    (h : ∀ x ∈ buffer, x.mode ≠ PickerMode.steer) :
    shiftNextSteer buffer = (none, buffer) := by
  unfold shiftNextSteer
  rw [findIdx?_none_of_all buffer (fun x hx => isSteer_false_of_ne x (h x hx)) 0]

/-- C4: in the mode picker, tab, up and down each toggle `selected`
between steer and follow-up (toggling twice restores it), left always
forces steer and right always forces follow-up, enter emits a select
action carrying the current `selected`, escape emits cancel, every other
token changes no state and emits nothing, and no input ever changes
`messageText`. -/
theorem modePicker_input_spec (s : ModePickerState) :
    (handleModePickerInput s InputToken.tab =
      ({ s with selected :=
          if s.selected = PickerMode.steer then PickerMode.followUp
          else PickerMode.steer }, none)) ∧
    (handleModePickerInput s InputToken.up =
      ({ s with selected :=
          if s.selected = PickerMode.steer then PickerMode.followUp
          else PickerMode.steer }, none)) ∧
    (handleModePickerInput s InputToken.down =
      ({ s with selected :=
          if s.selected = PickerMode.steer then PickerMode.followUp
          else PickerMode.steer }, none)) ∧
    ((handleModePickerInput (handleModePickerInput s InputToken.tab).1 InputToken.tab).1.selected
      = s.selected) ∧
    (handleModePickerInput s InputToken.left =
      ({ s with selected := PickerMode.steer }, none)) ∧
    (handleModePickerInput s InputToken.right =
      ({ s with selected := PickerMode.followUp }, none)) ∧
    (handleModePickerInput s InputToken.enter =
      (s, some (ModePickerAction.select s.selected))) ∧
    (handleModePickerInput s InputToken.escape = (s, some ModePickerAction.cancel)) ∧
    (∀ t, (handleModePickerInput s t).1.messageText = s.messageText) ∧
    (∀ t, t ∉ ([InputToken.tab, InputToken.up, InputToken.down, InputToken.left,
        InputToken.right, InputToken.enter, InputToken.escape] : List InputToken) →
      handleModePickerInput s t = (s, none)) := by
  obtain ⟨sel, txt⟩ := s
  refine ⟨rfl, rfl, rfl, ?_, rfl, rfl, rfl, rfl, ?_, ?_⟩
  · cases sel <;> rfl
  · intro t; cases t <;> cases sel <;> rfl
  · intro t ht
    cases t <;> first
      | rfl
      | exact absurd (by decide) ht

/-- C4 witness: the theorem evaluated at a concrete picker state. -/
theorem modePicker_input_spec_witness :
    handleModePickerInput ⟨PickerMode.steer, "hello"⟩ InputToken.other =
      (⟨PickerMode.steer, "hello"⟩, none) :=
  (modePicker_input_spec ⟨PickerMode.steer, "hello"⟩).2.2.2.2.2.2.2.2.2
    InputToken.other (by decide)

/-- C9: `shiftNextSteer` removes exactly the earliest steer-tagged entry
and returns it, leaving all remaining entries in their original relative
order; when no entry is steer-tagged (the empty queue included) it returns
none and leaves the queue unchanged. -/
theorem shiftNextSteer_spec (pre post buffer : List BufferedMessage) (m : BufferedMessage) :
    ((∀ x ∈ pre, x.mode ≠ PickerMode.steer) → m.mode = PickerMode.steer →
      shiftNextSteer (pre ++ m :: post) = (some m, pre ++ post)) ∧
    ((∀ x ∈ buffer, x.mode ≠ PickerMode.steer) →
      shiftNextSteer buffer = (none, buffer)) :=
  ⟨fun h1 h2 => shiftNextSteer_found pre m post h1 h2,
   fun h => shiftNextSteer_none buffer h⟩

/-- C9 witness: the earliest of two steers is pulled from the middle of a
concrete queue, and a steer-free queue is left unchanged. -/
theorem shiftNextSteer_spec_witness :
    shiftNextSteer [msgB, msgA, msgC] = (some msgA, [msgB, msgC]) ∧
    shiftNextSteer [msgB] = (none, [msgB]) :=
  ⟨(shiftNextSteer_spec [msgB] [msgC] [] msgA).1 (by decide) (by decide),
   (shiftNextSteer_spec [] [] [msgB] msgA).2 (by decide)⟩

/-- C1: after an editor commit the queue is the committed list and then,
if the backend is idle and the committed list is non-empty, its front is
popped and dispatched untagged; if the backend is still busy, exactly the
earliest steer-tagged entry is removed and dispatched once as a steer
interrupt, the rest keeping their order; a busy commit with no steer entry
dispatches nothing and keeps the committed list whole. -/
theorem editQueue_commit_policy (m : BufferedMessage)
    (pre post committed : List BufferedMessage) :
    (editQueueCommit true (m :: post) = (post, [Sent.plain m.text])) ∧
    (editQueueCommit true [] = ([], [])) ∧
    ((∀ x ∈ pre, x.mode ≠ PickerMode.steer) → m.mode = PickerMode.steer →
      editQueueCommit false (pre ++ m :: post) =
        (pre ++ post, [Sent.tagged m.text PickerMode.steer])) ∧
    ((∀ x ∈ committed, x.mode ≠ PickerMode.steer) →
      editQueueCommit false committed = (committed, [])) := by
  refine ⟨rfl, rfl, ?_, ?_⟩
  · intro h1 h2
    show flushOneSteerWhileBusy (pre ++ m :: post) = _
    exact flushOneSteerWhileBusy_found pre m post h1 h2
  · intro h
    show flushOneSteerWhileBusy committed = _
    exact flushOneSteerWhileBusy_none committed h

/-- C1 witness: an idle commit pops the front; a busy commit pulls the
earliest steer out of the middle; a busy steer-free commit is inert. -/
theorem editQueue_commit_policy_witness :
    editQueueCommit true [msgA, msgB] = ([msgB], [Sent.plain "A"]) ∧
    editQueueCommit false [msgB, msgA, msgC] =
      ([msgB, msgC], [Sent.tagged "A" PickerMode.steer]) ∧
    editQueueCommit false [msgB] = ([msgB], []) :=
  ⟨(editQueue_commit_policy msgA [] [msgB] []).1,
   (editQueue_commit_policy msgA [msgB] [msgC] []).2.2.1 (by decide) (by decide),
   (editQueue_commit_policy msgA [] [] [msgB]).2.2.2 (by decide)⟩

/-- C7: with the edit-session guard raised, an `agent_end` event leaves
the buffer untouched and dispatches nothing (likewise at the session
level, where an open session never changes the live buffer or the
dispatch log); with the guard down, the handler is inert on an empty
queue and otherwise pops exactly the front entry and dispatches it. -/
theorem agentEnd_guard_policy (isIdle : Bool) (buffer rest : List BufferedMessage)
    (m : BufferedMessage) (c : SessionCtx) (events : List SessionEvent) :
    (handleAgentEnd true isIdle buffer = (buffer, [])) ∧
    (sessionStep c (SessionEvent.agentEnd isIdle) = (c, none)) ∧
    ((runSession c events).1.buffer = c.buffer ∧ (runSession c events).1.sent = c.sent) ∧
    (handleAgentEnd false isIdle [] = ([], [])) ∧
    (handleAgentEnd false isIdle (m :: rest) = (rest, [sendToPi m.text isIdle m.mode])) :=
  ⟨handleAgentEnd_editing isIdle buffer,
   sessionStep_agentEnd c isIdle,
   runSession_frame events c,
   rfl,
   rfl⟩

/-- C5: in every editor state reachable from `createQueueEditorState` by
any sequence of key inputs and inline-edit callbacks, `selected` is a
valid index whenever `items` is non-empty and is 0 whenever `items` is
empty; in particular a delete re-clamps `selected` to
`min selected (newLength - 1)` (with the truncated subtraction rendering
`max 0`). -/
theorem queueEditor_selected_invariant (init : List BufferedMessage)
    (events : List EditorEvent) (s : QueueEditorState) :
    selectedInv (runEditorState (createQueueEditorState init) events) ∧
    (s.items ≠ [] → s.mode = EditorMode.list →
      (handleQueueEditorInput s InputToken.keyD).1.selected =
        min s.selected ((s.items.eraseIdx s.selected).length - 1)) := by
  constructor
  · exact runEditorState_inv events (createQueueEditorState init)
      ⟨fun _ => rfl, fun h => h⟩
  · intro hne hlist
    unfold handleQueueEditorInput
    rw [if_neg hne, hlist, if_neg (by decide)]
    rfl

/-- C5 witness: the invariant after a concrete event sequence, and the
delete re-clamp evaluated at the last index of a three-item list. -/
theorem queueEditor_selected_invariant_witness :
    selectedInv (runEditorState (createQueueEditorState [msgA, msgB, msgC])
      [EditorEvent.key InputToken.keyJ, EditorEvent.key InputToken.keyD]) ∧
    (handleQueueEditorInput ⟨[msgA, msgB, msgC], 2, EditorMode.list⟩ InputToken.keyD).1.selected =
      min 2 (([msgA, msgB, msgC].eraseIdx 2).length - 1) :=
  ⟨(queueEditor_selected_invariant [msgA, msgB, msgC]
      [EditorEvent.key InputToken.keyJ, EditorEvent.key InputToken.keyD]
      ⟨[msgA, msgB, msgC], 2, EditorMode.list⟩).1,
   (queueEditor_selected_invariant [msgA, msgB, msgC] []
      ⟨[msgA, msgB, msgC], 2, EditorMode.list⟩).2 (by decide) rfl⟩

/-- C6: when a non-empty edit session resolves with cancel, the live queue
is exactly what it was when the session opened and nothing was dispatched,
whatever navigation, reorder, toggle, edit, delete and lifecycle events
happened while it was open. -/
theorem editQueue_cancel_frame (isIdle : Bool) (buffer : List BufferedMessage)
    (events : List SessionEvent) (hne : buffer ≠ [])
    (hc : (runSession ⟨buffer, createQueueEditorState buffer, []⟩ events).2 =
      some QueueEditorAction.cancel) :
    editQueue isIdle buffer events = (buffer, []) := by
  unfold editQueue
  rw [if_neg (by simp only [List.isEmpty_iff]; exact hne)]
  dsimp only
  rw [hc]
  obtain ⟨hb, hs⟩ := runSession_frame events ⟨buffer, createQueueEditorState buffer, []⟩
  rw [hb, hs]

/-- C6 witness: a session that reorders, toggles and deletes and then
cancels leaves the concrete queue untouched and dispatches nothing. -/
theorem editQueue_cancel_frame_witness :
    editQueue false [msgA, msgB]
      [SessionEvent.editorInput (EditorEvent.key InputToken.keyJ),
       SessionEvent.editorInput (EditorEvent.key InputToken.tab),
       SessionEvent.editorInput (EditorEvent.key InputToken.keyD),
       SessionEvent.agentEnd true,
       SessionEvent.editorInput (EditorEvent.key InputToken.escape)] =
      ([msgA, msgB], []) :=
  editQueue_cancel_frame false [msgA, msgB] _ (by decide) (by decide)

/-- C10: once the editor's item list is empty, enter and escape both
resolve the session with an empty save (so escape never yields cancel
there) and every other key is inert; hence a session that deletes every
entry and then presses escape still commits the empty list, emptying the
live queue with nothing dispatched. -/
theorem emptyEditor_save_spec (s : QueueEditorState) (t : InputToken)
    (isIdle : Bool) (m : BufferedMessage) (h : s.items = []) :
    (handleQueueEditorInput s InputToken.enter = (s, some (QueueEditorAction.save []))) ∧
    (handleQueueEditorInput s InputToken.escape = (s, some (QueueEditorAction.save []))) ∧
    (t ≠ InputToken.enter → t ≠ InputToken.escape →
      handleQueueEditorInput s t = (s, none)) ∧
    (editQueue isIdle [m]
      [SessionEvent.editorInput (EditorEvent.key InputToken.keyD),
       SessionEvent.editorInput (EditorEvent.key InputToken.escape)] = ([], [])) := by
  refine ⟨?_, ?_, ?_, ?_⟩
  · unfold handleQueueEditorInput
    rw [if_pos h]
    rfl
  · unfold handleQueueEditorInput
    rw [if_pos h]
    rfl
  · intro h1 h2
    unfold handleQueueEditorInput
    rw [if_pos h]
    cases t with
    | enter => exact absurd rfl h1
    | escape => exact absurd rfl h2
    | tab => rfl
    | up => rfl
    | down => rfl
    | left => rfl
    | right => rfl
    | keyJ => rfl
    | keyK => rfl
    | keyE => rfl
    | keyD => rfl
    | del => rfl
    | backspace => rfl
    | other => rfl
  · cases isIdle <;> rfl

/-- C10 witness: the theorem evaluated on a concrete empty editor state
and a concrete one-entry queue. -/
theorem emptyEditor_save_spec_witness :
    (handleQueueEditorInput ⟨[], 0, EditorMode.list⟩ InputToken.escape =
      (⟨[], 0, EditorMode.list⟩, some (QueueEditorAction.save []))) ∧
    (handleQueueEditorInput ⟨[], 0, EditorMode.list⟩ InputToken.keyD =
      (⟨[], 0, EditorMode.list⟩, none)) ∧
    (editQueue false [msgA]
      [SessionEvent.editorInput (EditorEvent.key InputToken.keyD),
       SessionEvent.editorInput (EditorEvent.key InputToken.escape)] = ([], [])) :=
  ⟨(emptyEditor_save_spec ⟨[], 0, EditorMode.list⟩ InputToken.keyD false msgA rfl).2.1,
   (emptyEditor_save_spec ⟨[], 0, EditorMode.list⟩ InputToken.keyD false msgA rfl).2.2.1
     (by decide) (by decide),
   (emptyEditor_save_spec ⟨[], 0, EditorMode.list⟩ InputToken.keyD false msgA rfl).2.2.2⟩

/-- C8: when the inline editor submits a value whose trim is non-blank,
the selected entry's text becomes the trimmed value and the editor
returns to list mode; a blank submission leaves the entry untouched and
returns to list mode; an explicit escape from the inline editor also
returns to list mode with the items untouched. -/
theorem inlineEdit_submit_spec (s : QueueEditorState) (value : String)
    (_hmode : s.mode = EditorMode.edit) (hsel : s.selected < s.items.length) :
    ((jsTrim value).data ≠ [] →
      editInputOnSubmit s value =
        { s with
            items := s.items.set s.selected
              ({ s.items.get ⟨s.selected, hsel⟩ with text := jsTrim value }),
            mode := EditorMode.list }) ∧
    ((jsTrim value).data = [] →
      editInputOnSubmit s value = { s with mode := EditorMode.list }) ∧
    (editInputOnEscape s = { s with mode := EditorMode.list }) := by
  have hne : s.items ≠ [] := by
    intro hz
    rw [hz] at hsel
    exact absurd hsel (by simp)
  refine ⟨?_, ?_, rfl⟩
  · intro hnb
    unfold editInputOnSubmit
    rw [if_neg hne]
    dsimp only
    rw [if_pos (List.length_pos.mpr hnb), List.get?_eq_get hsel]
  · intro hb
    unfold editInputOnSubmit
    rw [if_neg hne]
    dsimp only
    rw [if_neg (by simp [hb])]

/-- C8 witness: a concrete submit with surrounding whitespace rewrites the
selected entry to the trimmed text; a whitespace-only submit leaves it
unchanged; both states return to list mode. -/
theorem inlineEdit_submit_spec_witness :
    editInputOnSubmit ⟨[{ text := "old", mode := PickerMode.followUp, id := "1" }], 0,
        EditorMode.edit⟩ "  new text  " =
      ⟨[{ text := "new text", mode := PickerMode.followUp, id := "1" }], 0,
        EditorMode.list⟩ ∧
    editInputOnSubmit ⟨[{ text := "old", mode := PickerMode.followUp, id := "1" }], 0,
        EditorMode.edit⟩ "   " =
      ⟨[{ text := "old", mode := PickerMode.followUp, id := "1" }], 0,
        EditorMode.list⟩ := by
  constructor
  · have h := (inlineEdit_submit_spec
      ⟨[{ text := "old", mode := PickerMode.followUp, id := "1" }], 0, EditorMode.edit⟩
      "  new text  " rfl (by decide)).1 (by decide)
    rw [h]
    decide
  · have h := (inlineEdit_submit_spec
      ⟨[{ text := "old", mode := PickerMode.followUp, id := "1" }], 0, EditorMode.edit⟩
      "   " rfl (by decide)).2.1 (by decide)
    rw [h]

/-- C2: the bypass predicate holds exactly when the trimmed text starts
with a slash and the first whitespace-delimited token consists, after the
slash, only of letters, digits, colons, underscores and dashes; a further
slash inside the token defeats it; the slash-command examples of the test
suite are bypassed and the chat and path examples are not. -/
theorem shouldBypassPicker_spec (text : String) :
    (shouldBypassPicker text = true ↔
      ∃ rest : List Char, trimChars text.data = '/' :: rest ∧
        ∀ c ∈ rest.takeWhile (fun ch => !ch.isWhitespace),
          (c.isAlpha = true ∨ c.isDigit = true ∨ c = ':' ∨ c = '_' ∨ c = '-')) ∧
    (∀ rest : List Char, trimChars text.data = '/' :: rest →
      '/' ∈ rest.takeWhile (fun ch => !ch.isWhitespace) →
      shouldBypassPicker text = false) ∧
    shouldBypassPicker "/model" = true ∧
    shouldBypassPicker "/model q" = true ∧
    shouldBypassPicker "/settings" = true ∧
    shouldBypassPicker "/skill:deep-research" = true ∧
    shouldBypassPicker "/" = true ∧
    shouldBypassPicker "help me with this" = false ∧
    shouldBypassPicker "  follow up after this" = false ∧
    shouldBypassPicker "/tmp/build.log" = false ∧
    shouldBypassPicker "/Users/julian/code" = false := by
  refine ⟨?_, ?_, by decide, by decide, by decide, by decide, by decide,
    by decide, by decide, by decide, by decide⟩
  · unfold shouldBypassPicker
    cases htr : trimChars text.data with
    | nil => simp
    | cons c rest =>
      dsimp only
      by_cases hc : c = '/'
      · subst hc
        simp only [beq_self_eq_true, if_true, List.all_eq_true]
        constructor
        · intro hall
          refine ⟨rest, rfl, fun ch hm => ?_⟩
          have := hall ch hm
          simp only [isCommandChar, Bool.or_eq_true, beq_iff_eq] at this
          tauto
        · rintro ⟨rest2, heq, hprop⟩
          obtain rfl : rest = rest2 := (List.cons_eq_cons.mp heq).2
          intro ch hm
          have := hprop ch hm
          simp only [isCommandChar, Bool.or_eq_true, beq_iff_eq]
          tauto
      · rw [if_neg (by simpa using hc)]
        constructor
        · intro hf
          exact absurd hf (by simp)
        · rintro ⟨rest2, heq, hprop⟩
          exact absurd (List.cons_eq_cons.mp heq).1 hc
  · intro rest htr hmem
    unfold shouldBypassPicker
    rw [htr]
    simp only [beq_self_eq_true, if_true]
    rw [List.all_eq_false]
    exact ⟨'/', hmem, by decide⟩

/-- C2 witness: the characterization applied at a bypassed command and the
path exclusion applied at a concrete path-like submission. -/
theorem shouldBypassPicker_spec_witness :
    shouldBypassPicker "/model" = true ∧
    shouldBypassPicker "/tmp/build.log" = false :=
  ⟨(shouldBypassPicker_spec "/model").2.2.1,
   (shouldBypassPicker_spec "/tmp/build.log").2.1
     "tmp/build.log".data (by decide) (by decide)⟩

/-- C3 counterexample: from items A(steer), B(followUp), C(steer) with
`selected = 1`, pressing j produces order A, C, B with `selected = 2` —
not the order B, A, C stated in the claim. -/
theorem reorder_j_counterexample :
    (handleQueueEditorInput ⟨[msgA, msgB, msgC], 1, EditorMode.list⟩ InputToken.keyJ).1.items =
      [msgA, msgC, msgB] ∧
    (handleQueueEditorInput ⟨[msgA, msgB, msgC], 1, EditorMode.list⟩ InputToken.keyJ).1.selected = 2 ∧
    ¬((handleQueueEditorInput ⟨[msgA, msgB, msgC], 1, EditorMode.list⟩ InputToken.keyJ).1.items =
      [msgB, msgA, msgC]) := by
  decide

/-- C3 amended: from a three-item list with `selected = 1`, k yields order
b, a, c with `selected = 0` and j yields order a, c, b with
`selected = 2`; reordering is an adjacent swap that carries `selected`
along with the moved item (shown in general over any decomposition), and
k at index 0 and j at the last index change nothing. -/
theorem reorder_adjacent_swap (a b c : BufferedMessage) (s : QueueEditorState)
    (pre post : List BufferedMessage) (x y : BufferedMessage) :
    (handleQueueEditorInput ⟨[a, b, c], 1, EditorMode.list⟩ InputToken.keyK =
      (⟨[b, a, c], 0, EditorMode.list⟩, none)) ∧
    (handleQueueEditorInput ⟨[a, b, c], 1, EditorMode.list⟩ InputToken.keyJ =
      (⟨[a, c, b], 2, EditorMode.list⟩, none)) ∧
    (s.mode = EditorMode.list → s.items ≠ [] → s.selected = 0 →
      handleQueueEditorInput s InputToken.keyK = (s, none)) ∧
    (s.mode = EditorMode.list → s.items ≠ [] → s.selected = s.items.length - 1 →
      handleQueueEditorInput s InputToken.keyJ = (s, none)) ∧
    (handleQueueEditorInput
        ⟨pre ++ x :: y :: post, pre.length + 1, EditorMode.list⟩ InputToken.keyK =
      (⟨pre ++ y :: x :: post, pre.length, EditorMode.list⟩, none)) ∧
    (handleQueueEditorInput
        ⟨pre ++ x :: y :: post, pre.length, EditorMode.list⟩ InputToken.keyJ =
      (⟨pre ++ y :: x :: post, pre.length + 1, EditorMode.list⟩, none)) := by
  have hne2 : pre ++ x :: y :: post ≠ [] := by
    intro hz
    have := congrArg List.length hz
    simp [List.length_append] at this
  refine ⟨rfl, rfl, ?_, ?_, ?_, ?_⟩
  · intro hlist hne hz
    unfold handleQueueEditorInput
    rw [if_neg hne, hlist, if_neg (by decide)]
    show moveSelectedUp s = (s, none)
    unfold moveSelectedUp
    rw [hz, if_neg (by decide)]
  · intro hlist hne hz
    unfold handleQueueEditorInput
    rw [if_neg hne, hlist, if_neg (by decide)]
    show moveSelectedDown s = (s, none)
    unfold moveSelectedDown
    rw [hz, if_neg (by omega)]
  · unfold handleQueueEditorInput
    rw [if_neg hne2, if_neg (fun hmz => nomatch hmz)]
    show moveSelectedUp _ = _
    unfold moveSelectedUp
    dsimp only
    have hitems : pre ++ x :: y :: post = (pre ++ [x]) ++ y :: post := by simp
    have hlen1 : pre.length + 1 = (pre ++ [x]).length := by simp
    have hget : (pre ++ x :: y :: post).get? (pre.length + 1) = some y := by
      rw [hitems, hlen1]
      exact get?_append_cons _ y post
    have herase : (pre ++ x :: y :: post).eraseIdx (pre.length + 1) = pre ++ x :: post := by
      rw [hitems, hlen1, eraseIdx_append_cons]
      simp
    rw [if_pos (Nat.succ_pos pre.length), hget, herase]
    simp only [Nat.add_sub_cancel]
    rw [insertIdx_append_at pre (x :: post) y]
  · unfold handleQueueEditorInput
    rw [if_neg hne2, if_neg (fun hmz => nomatch hmz)]
    show moveSelectedDown _ = _
    unfold moveSelectedDown
    dsimp only
    have hget : (pre ++ x :: y :: post).get? pre.length = some x :=
      get?_append_cons pre x (y :: post)
    have herase : (pre ++ x :: y :: post).eraseIdx pre.length = pre ++ y :: post :=
      eraseIdx_append_cons pre x (y :: post)
    have hins : (pre ++ y :: post).insertIdx (pre.length + 1) x = pre ++ y :: x :: post := by
      have h2 : pre ++ y :: post = (pre ++ [y]) ++ post := by simp
      have h3 : pre.length + 1 = (pre ++ [y]).length := by simp
      rw [h2, h3, insertIdx_append_at]
      simp
    rw [if_pos (by simp [List.length_append]), hget, herase]
    dsimp only
    rw [hins]

/-- C3 amended witness: the concrete k move from the middle and both
boundary no-ops, evaluated on the three concrete messages. -/
theorem reorder_adjacent_swap_witness :
    handleQueueEditorInput ⟨[msgA, msgB, msgC], 1, EditorMode.list⟩ InputToken.keyK =
      (⟨[msgB, msgA, msgC], 0, EditorMode.list⟩, none) ∧
    handleQueueEditorInput ⟨[msgA, msgB, msgC], 0, EditorMode.list⟩ InputToken.keyK =
      (⟨[msgA, msgB, msgC], 0, EditorMode.list⟩, none) ∧
    handleQueueEditorInput ⟨[msgA, msgB, msgC], 2, EditorMode.list⟩ InputToken.keyJ =
      (⟨[msgA, msgB, msgC], 2, EditorMode.list⟩, none) :=
  ⟨(reorder_adjacent_swap msgA msgB msgC
      ⟨[msgA, msgB, msgC], 0, EditorMode.list⟩ [] [] msgA msgA).1,
   (reorder_adjacent_swap msgA msgB msgC
      ⟨[msgA, msgB, msgC], 0, EditorMode.list⟩ [] [] msgA msgA).2.2.1
      rfl (by decide) rfl,
   (reorder_adjacent_swap msgA msgB msgC
      ⟨[msgA, msgB, msgC], 2, EditorMode.list⟩ [] [] msgA msgA).2.2.2.1
      rfl (by decide) (by decide)⟩
